import Mathlib

/-!
Shallow embedding of the core utilities of `flexmeasures_entsoe/utils.py`:

* `abort_if_data_empty` and `abort_if_data_incomplete` (the completeness checker),
* `parse_from_and_to_dates` (the date-range resolver),
* `resample_if_needed` (the resolution adapter), together with models of the
  pandas primitives it delegates to (`pd.infer_freq`, `pd.date_range` with
  `inclusive="left"`, `reindex(...).pad()` and `resample(...).mean()`).

Modelling conventions:

* Timestamps and durations are integers counting minutes; one calendar day is
  1440 minutes, and midnight boundaries are the multiples of 1440 (the Python
  code works with timezone-aware wall-clock datetimes; we model wall-clock time
  directly, so localizing a naive date to the target timezone is the identity
  on the wall-clock value).
* Series values are rationals (exact stand-ins for floats); a missing value
  (pandas `NaN`) is `Option.none`.
* Python exceptions (`click.Abort` after an echoed message, `ValueError`)
  become `Except` errors.  `click.Abort` carries no payload, but the echoed
  message carries the expected/observed counts, so the incompleteness error is
  modelled as a structure holding both counts.
* Python `int(x)` truncates toward zero, which is Lean's `Int.tdiv`.
-/

/-- One calendar day, in minutes (the model's time unit). -/
def day : Int := 1440

/-- A pandas Series with a datetime index: ordered (timestamp, value) pairs. -/
abbrev Series := List (Int × Rat)

/-- The error raised by `abort_if_data_empty` (`click.echo` + `click.Abort`). -/
def empty_data_message : String :=
  "Result is empty. Probably ENTSO-E does not provide these forecasts yet ..."

/-- `abort_if_data_empty(data)`: aborts iff the fetched data has no rows.
`n` is `len(data)`. -/
def abort_if_data_empty (n : Nat) : Except String Unit :=
  if n = 0 then .error empty_data_message else .ok ()

/-- Payload of the incompleteness abort: the message echoed by
`abort_if_data_incomplete` reports the expected and the observed period
counts before raising `click.Abort`. -/
structure IncompleteData where
  expected : Int
  observed : Nat
  deriving DecidableEq, Repr

/-- `abort_if_data_incomplete(data, from_time, until_time, resolution)`:
`expected_periods = int((until_time - from_time) / resolution)` (Python `int`
truncates toward zero, i.e. `Int.tdiv`), and the run aborts when
`len(data) < expected_periods`.  `observed` is `len(data)`. -/
def abort_if_data_incomplete (observed : Nat) (from_time until_time resolution : Int) :
    Except IncompleteData Unit :=
  let expected_periods : Int := (until_time - from_time).tdiv resolution
  if (observed : Int) < expected_periods then
    .error ⟨expected_periods, observed⟩
  else
    .ok ()

/-- The `ValueError` message for an unrecognized `default_to` value. -/
def invalid_policy_message (p : String) : String :=
  "Invalid default_to value: " ++ p ++ ". Expected " ++
    "\x27today\x27, \x27tomorrow\x27 or \x27today-and-tomorrow\x27."

/-- The three recognized `default_to` policies. -/
def valid_policies : List String := ["today", "tomorrow", "today-and-tomorrow"]

/-- `now.replace(hour=0, minute=0, second=0, microsecond=0)`: truncate a
wall-clock time to the midnight starting its day. -/
def truncate_to_midnight (t : Int) : Int := t.fdiv day * day

/-- `parse_from_and_to_dates(from_date, until_date, country_timezone, default_to)`.

`now` is the current wall-clock time in the target timezone (the code reads
`datetime.now(tz)`; we pass it explicitly).  Localization of a given naive
date is the identity on its wall-clock value.  The policy dispatch happens
first, so an invalid `default_to` raises `ValueError` even when both dates are
given; a given `until_date` is inclusive, so 24 hours are added to it. -/
def parse_from_and_to_dates (from_date until_date : Option Int) (now : Int)
    (default_to : String) : Except String (Int × Int) :=
  let today_start := truncate_to_midnight now
  let defaults : Option (Int × Int) :=
    if default_to = "today" then
      some (today_start, today_start + day)
    else if default_to = "tomorrow" then
      some (today_start + day, today_start + day + day)
    else if default_to = "today-and-tomorrow" then
      some (today_start, today_start + 2 * day)
    else
      none
  match defaults with
  | none => .error (invalid_policy_message default_to)
  | some (default_start, default_end) =>
    let start_date := match from_date with
      | none => default_start
      | some d => d
    let end_date := match until_date with
      | none => default_end
      | some d => d + 24 * 60
    .ok (start_date, end_date)

/-- Consecutive differences of a list of timestamps. -/
def diffs : List Int → List Int
  | a :: b :: rest => (b - a) :: diffs (b :: rest)
  | _ => []

/-- `pd.infer_freq(index)`: raises `ValueError` on fewer than 3 timestamps,
returns the common spacing when all consecutive differences agree, and `None`
otherwise (irregular index). -/
def infer_freq (ts : List Int) : Except String (Option Int) :=
  if ts.length < 3 then .error "Need at least 3 dates to infer frequency"
  else
    match diffs ts with
    | [] => .ok none
    | d :: ds => if ds.all (fun x => decide (x = d)) then .ok (some d) else .ok none

/-- `s.index[0]`. -/
def firstTs (s : Series) : Int := (s.map Prod.fst).headD 0

/-- `s.index[-1]`. -/
def lastTs (s : Series) : Int := (s.map Prod.fst).getLastD 0

/-- The arithmetic grid `a, a + step, …` with `n` points. -/
def gridFrom (a step : Int) : Nat → List Int
  | 0 => []
  | n + 1 => a :: gridFrom (a + step) step n

/-- `pd.date_range(start, stop, freq=step, inclusive="left")`: the points
`start + k * step` with `start + k * step < stop`, i.e. `⌈(stop - start) / step⌉`
points (none when the span is nonpositive). -/
def date_range_left (start stop step : Int) : List Int :=
  gridFrom start step ((stop - start + step - 1).fdiv step).toNat

/-- Exact-match lookup of a timestamp in a series (what `reindex` does per
new index entry). -/
def lookupTs (s : Series) (t : Int) : Option Rat :=
  (s.find? fun p => decide (p.1 = t)).map Prod.snd

/-- Forward-fill pass of `pad()`: walk the new index carrying the last value
seen; an exact index match resets the carry, otherwise the carry (or `NaN`
before any match) is emitted. -/
def padAux (s : Series) (carry : Option Rat) : List Int → List (Int × Option Rat)
  | [] => []
  | t :: ts =>
    match lookupTs s t with
    | some v => (t, some v) :: padAux s (some v) ts
    | none => (t, carry) :: padAux s carry ts

/-- `s.reindex(index).pad()`. -/
def reindex_pad (s : Series) (grid : List Int) : List (Int × Option Rat) :=
  padAux s none grid

/-- A series without missing values, viewed at the `NaN`-capable type. -/
def with_some (s : Series) : List (Int × Option Rat) :=
  s.map fun p => (p.1, some p.2)

/-- The most recent input value at or before `t` (the spec's description of
forward-filling); `s` is assumed sorted by timestamp. -/
def ffill (s : Series) (t : Int) : Option Rat :=
  ((s.filter fun p => decide (p.1 ≤ t)).getLast?).map Prod.snd

/-- Arithmetic mean of a list of values. -/
def mean_of (l : List Rat) : Rat := l.sum / l.length

/-- `s.resample(target).mean()` with pandas defaults for a fixed frequency:
bins are the half-open windows `[origin + k * target, origin + (k + 1) * target)`
with `origin` the midnight starting the first timestamp's day
(`origin="start_day"`), labelled by their left edge, running from the bin
holding the first timestamp to the bin holding the last; each bin's value is
the mean of the samples inside it, `NaN` for an empty bin. -/
def resample_mean (s : Series) (target : Int) : List (Int × Option Rat) :=
  match s with
  | [] => []
  | _ :: _ =>
    let origin := truncate_to_midnight (firstTs s)
    let k0 := (firstTs s - origin).fdiv target
    let kN := (lastTs s - origin).fdiv target
    (List.range (kN - k0 + 1).toNat).map fun i : Nat =>
      let left := origin + (k0 + (i : Int)) * target
      let members := s.filter fun p => decide (left ≤ p.1) && decide (p.1 < left + target)
      (left, if members.length = 0 then none else some (mean_of (members.map Prod.snd)))

/-- `resample_if_needed(s, sensor)` with `target = sensor.event_resolution`:
infer the frequency (propagating the pandas `ValueError` on short input and
raising on an undiscernible frequency), return `s` unchanged on an exact
match, upsample by reindex-and-pad onto a left-inclusive grid over
`[s.index[0], s.index[-1] + inferred)` when the inferred resolution is
coarser, and downsample by resample-mean when it is finer. -/
def resample_if_needed (s : Series) (target : Int) :
    Except String (List (Int × Option Rat)) :=
  match infer_freq (s.map Prod.fst) with
  | .error e => .error e
  | .ok none =>
    .error "Data has no discernible frequency from which to derive an event resolution."
  | .ok (some inferred) =>
    if inferred = target then
      .ok (with_some s)
    else if target < inferred then
      .ok (reindex_pad s (date_range_left (firstTs s) (lastTs s + inferred) target))
    else
      .ok (resample_mean s target)

/-! ## Completeness checker (claims C1 and C10) -/

/-- C1: for every range with `end > start` and every positive resolution, the
completeness check succeeds iff the observed count is at least
`⌊(end - start) / resolution⌋`; when it fails the aborting error reports both
the expected and the observed count, and an observed count at or above the
expected one returns without error. -/
theorem abort_if_data_incomplete_iff_floor (observed : Nat) (ft ut res : Int)
    (h1 : ft < ut) (h2 : 0 < res) :
    (abort_if_data_incomplete observed ft ut res = .ok () ↔
      (ut - ft).fdiv res ≤ (observed : Int)) ∧
    ((observed : Int) < (ut - ft).fdiv res →
      abort_if_data_incomplete observed ft ut res =
        .error ⟨(ut - ft).fdiv res, observed⟩) := by
  have hres : 0 ≤ res := le_of_lt h2
  have heq : (ut - ft).tdiv res = (ut - ft).fdiv res := by
    rw [Int.tdiv_eq_ediv (by omega) hres, Int.fdiv_eq_ediv _ hres]
  have hform : abort_if_data_incomplete observed ft ut res =
      if (observed : Int) < (ut - ft).fdiv res then
        Except.error ⟨(ut - ft).fdiv res, observed⟩
      else Except.ok () := by
    simp only [abort_if_data_incomplete, heq]
  rcases lt_or_le (observed : Int) ((ut - ft).fdiv res) with h | h
  · rw [hform, if_pos h]
    exact ⟨⟨fun hc => absurd hc (by simp), fun hc => absurd h (not_lt.mpr hc)⟩,
      fun _ => rfl⟩
  · rw [hform, if_neg (not_lt.mpr h)]
    exact ⟨⟨fun _ => h, fun _ => rfl⟩, fun hc => absurd h (not_le.mpr hc)⟩

/-- Witness for C1 (the spec's own example: 24 hourly periods expected,
20 observed fails, 24 observed passes). -/
theorem abort_if_data_incomplete_iff_floor_witness :
    (abort_if_data_incomplete 20 0 1440 60 = .ok () ↔
      (1440 - 0 : Int).fdiv 60 ≤ (20 : Nat)) ∧
    ((20 : Nat) < ((1440 : Int) - 0).fdiv 60 →
      abort_if_data_incomplete 20 0 1440 60 =
        .error ⟨((1440 : Int) - 0).fdiv 60, 20⟩) :=
  abort_if_data_incomplete_iff_floor 20 0 1440 60 (by decide) (by decide)

/-- C10: over a range strictly shorter than one resolution period the expected
count is 0, so the completeness check succeeds for every observed count,
including 0; an empty fetch is rejected only by the separate emptiness check,
which fails exactly on count 0. -/
theorem short_range_completeness_trivial (observed : Nat) (ft ut res : Int)
    (h1 : ft < ut) (h2 : ut - ft < res) :
    abort_if_data_incomplete observed ft ut res = .ok () ∧
    abort_if_data_empty 0 = .error empty_data_message ∧
    (∀ n : Nat, abort_if_data_empty n = .ok () ↔ n ≠ 0) := by
  refine ⟨?_, rfl, ?_⟩
  · have hz : (ut - ft).tdiv res = 0 := by
      rw [Int.tdiv_eq_ediv (by omega) (by omega)]
      exact Int.ediv_eq_zero_of_lt (by omega) h2
    simp [abort_if_data_incomplete, hz]
  · intro n
    constructor
    · intro h hn
      simp [abort_if_data_empty, hn] at h
    · intro hn
      simp [abort_if_data_empty, hn]

/-- Witness for C10: a 30-minute range at hourly resolution accepts an empty
result, while the emptiness check rejects it. -/
theorem short_range_completeness_trivial_witness :
    abort_if_data_incomplete 0 0 30 60 = .ok () ∧
    abort_if_data_empty 0 = .error empty_data_message ∧
    (∀ n : Nat, abort_if_data_empty n = .ok () ↔ n ≠ 0) :=
  short_range_completeness_trivial 0 0 30 60 (by decide) (by decide)

/-! ## Date-range resolver (claims C4, C5, C8 and C9) -/

/-- C4: with both bounds omitted and a valid policy, the range is anchored at
local midnight of the current day and spans 1 day for `"today"` (starting at
midnight today) and `"tomorrow"` (starting at midnight tomorrow), and 2 days
for `"today-and-tomorrow"` (starting at midnight today). -/
theorem parse_defaults_policy_ranges (now : Int) :
    parse_from_and_to_dates none none now "today" =
      .ok (truncate_to_midnight now, truncate_to_midnight now + day) ∧
    parse_from_and_to_dates none none now "tomorrow" =
      .ok (truncate_to_midnight now + day, truncate_to_midnight now + day + day) ∧
    parse_from_and_to_dates none none now "today-and-tomorrow" =
      .ok (truncate_to_midnight now, truncate_to_midnight now + 2 * day) ∧
    day ∣ truncate_to_midnight now ∧
    truncate_to_midnight now ≤ now ∧ now < truncate_to_midnight now + day := by
  have hmid : truncate_to_midnight now = now / 1440 * 1440 := by
    unfold truncate_to_midnight day
    rw [Int.fdiv_eq_ediv _ (by norm_num)]
  refine ⟨rfl, rfl, rfl, ?_, ?_, ?_⟩
  · exact dvd_mul_left day (now.fdiv day)
  · rw [hmid]; omega
  · rw [hmid]; unfold day; omega

/-- C5 counterexample: with both dates given but an unrecognized policy
string, the resolver raises the invalid-policy `ValueError` instead of
returning the localized pair, so the claim's "regardless of the policy
argument" fails. -/
theorem parse_explicit_invalid_policy_cex :
    parse_from_and_to_dates (some 0) (some 0) 0 "yesterday" =
      .error (invalid_policy_message "yesterday") ∧
    parse_from_and_to_dates (some 0) (some 0) 0 "yesterday" ≠
      .ok (0, 0 + 24 * 60) := by
  refine ⟨rfl, ?_⟩
  intro h
  rw [show parse_from_and_to_dates (some 0) (some 0) 0 "yesterday" =
      .error (invalid_policy_message "yesterday") from rfl] at h
  exact Except.noConfusion h

/-- C5 (amended): with both `from_date = D1` and `until_date = D2` given and a
valid policy, the result is `start = D1` and `end = D2 + 24` hours, whichever
of the three valid policies is passed. -/
theorem parse_explicit_dates_valid_policy (p : String) (hp : p ∈ valid_policies)
    (d1 d2 now : Int) :
    parse_from_and_to_dates (some d1) (some d2) now p = .ok (d1, d2 + 24 * 60) := by
  fin_cases hp <;> rfl

/-- Witness for the amended C5. -/
theorem parse_explicit_dates_valid_policy_witness :
    parse_from_and_to_dates (some 100) (some 2000) 700 "today" = .ok (100, 2000 + 24 * 60) :=
  parse_explicit_dates_valid_policy "today" (by decide) 100 2000 700

/-- C8: any `default_to` value outside the three recognized policies makes the
resolver fail at once, whatever the other arguments, with the `ValueError`
whose message names the allowed set of values. -/
theorem parse_invalid_policy_error (p : String) (hp : p ∉ valid_policies)
    (fd ud : Option Int) (now : Int) :
    parse_from_and_to_dates fd ud now p = .error (invalid_policy_message p) ∧
    ∃ pre, invalid_policy_message p =
      pre ++ "\x27today\x27, \x27tomorrow\x27 or \x27today-and-tomorrow\x27." := by
  simp only [valid_policies, List.mem_cons, List.not_mem_nil, or_false, not_or] at hp
  obtain ⟨h1, h2, h3⟩ := hp
  refine ⟨?_, ⟨"Invalid default_to value: " ++ p ++ ". Expected ", rfl⟩⟩
  simp [parse_from_and_to_dates, h1, h2, h3]

/-- Witness for C8. -/
theorem parse_invalid_policy_error_witness :
    parse_from_and_to_dates none none 0 "everyday" =
      .error (invalid_policy_message "everyday") ∧
    ∃ pre, invalid_policy_message "everyday" =
      pre ++ "\x27today\x27, \x27tomorrow\x27 or \x27today-and-tomorrow\x27." :=
  parse_invalid_policy_error "everyday" (by decide) none none 0

/-- C9 counterexample: the resolver performs no consistency validation of
explicit bounds, so an `until_date` a day before the `from_date` produces a
range with `end < start`, violating the claimed invariant `end > start`. -/
theorem time_range_invariant_cex :
    parse_from_and_to_dates (some 2880) (some 0) 0 "today-and-tomorrow" =
      .ok (2880, 1440) ∧ ¬ ((1440 : Int) > 2880) := by
  exact ⟨rfl, by decide⟩

/-- C9 (amended): when both bounds are omitted, every range produced under a
valid policy satisfies the invariant `end > start`; with explicit bounds the
invariant can fail. -/
theorem time_range_invariant_defaults (p : String) (hp : p ∈ valid_policies)
    (now : Int) :
    ∃ a b, parse_from_and_to_dates none none now p = .ok (a, b) ∧ a < b := by
  fin_cases hp
  · exact ⟨truncate_to_midnight now, truncate_to_midnight now + day, rfl,
      by unfold day; omega⟩
  · exact ⟨truncate_to_midnight now + day, truncate_to_midnight now + day + day, rfl,
      by unfold day; omega⟩
  · exact ⟨truncate_to_midnight now, truncate_to_midnight now + 2 * day, rfl,
      by unfold day; omega⟩

/-- Witness for the amended C9. -/
theorem time_range_invariant_defaults_witness :
    ∃ a b, parse_from_and_to_dates none none 700 "tomorrow" = .ok (a, b) ∧ a < b :=
  time_range_invariant_defaults "tomorrow" (by decide) 700

/-! ## Resolution adapter (claims C2, C3, C6 and C7) -/

/-! Structure of a series with an inferred frequency: its timestamps form an
arithmetic grid, which the following lemmas characterize. -/

theorem gridFrom_length (a step : Int) : ∀ n, (gridFrom a step n).length = n := by
  intro n
  induction n generalizing a with
  | zero => rfl
  | succ k ih => simp [gridFrom, ih]

theorem mem_gridFrom {t step : Int} :
    ∀ {n : Nat} {a : Int}, t ∈ gridFrom a step n ↔ ∃ k : Nat, k < n ∧ t = a + k * step := by
  intro n
  induction n with
  | zero => intro a; simp [gridFrom]
  | succ m ih =>
    intro a
    simp only [gridFrom, List.mem_cons, ih]
    constructor
    · rintro (rfl | ⟨k, hk, rfl⟩)
      · exact ⟨0, by omega, by ring⟩
      · exact ⟨k + 1, by omega, by push_cast; ring⟩
    · rintro ⟨k, hk, rfl⟩
      cases k with
      | zero => left; ring
      | succ j => right; exact ⟨j, by omega, by push_cast; ring⟩

theorem gridFrom_getLastD (step : Int) :
    ∀ (n : Nat) (a : Int) (dflt : Int),
      (gridFrom a step (n + 1)).getLastD dflt = a + n * step := by
  intro n
  induction n with
  | zero => intro a dflt; simp [gridFrom]
  | succ m ih =>
    intro a dflt
    have : gridFrom a step (m + 2) = a :: gridFrom (a + step) step (m + 1) := rfl
    rw [this, List.getLastD_cons, ih]
    push_cast
    ring

theorem gridFrom_pairwise {step : Int} (hstep : 0 < step) :
    ∀ (n : Nat) (a : Int), (gridFrom a step n).Pairwise (· < ·) := by
  intro n
  induction n with
  | zero => intro a; exact List.Pairwise.nil
  | succ m ih =>
    intro a
    rw [show gridFrom a step (m + 1) = a :: gridFrom (a + step) step m from rfl,
      List.pairwise_cons]
    refine ⟨?_, ih (a + step)⟩
    intro b hb
    obtain ⟨k, _, rfl⟩ := mem_gridFrom.mp hb
    have : (0 : Int) ≤ k * step := mul_nonneg (Int.natCast_nonneg k) (le_of_lt hstep)
    omega

theorem diffs_const_eq_gridFrom (d : Int) :
    ∀ (ts : List Int) (a : Int),
      (∀ x ∈ diffs (a :: ts), x = d) → a :: ts = gridFrom a d (ts.length + 1) := by
  intro ts
  induction ts with
  | nil => intro a _; rfl
  | cons b rest ih =>
    intro a h
    have hba : b - a = d := h (b - a) (by simp [diffs])
    have htail : ∀ x ∈ diffs (b :: rest), x = d := by
      intro x hx
      exact h x (by simp [diffs, hx])
    have hrec : b :: rest = gridFrom b d (rest.length + 1) := ih b htail
    have hab : a + d = b := by omega
    simp only [List.length_cons]
    rw [show gridFrom a d (rest.length + 1 + 1) = a :: gridFrom (a + d) d (rest.length + 1)
      from rfl, hab, ← hrec]

theorem infer_freq_eq_some {ts : List Int} {d : Int}
    (h : infer_freq ts = .ok (some d)) :
    3 ≤ ts.length ∧ ∀ x ∈ diffs ts, x = d := by
  unfold infer_freq at h
  split at h
  · exact absurd h (by simp)
  · rename_i hlen
    refine ⟨by omega, ?_⟩
    split at h
    · rename_i heq
      intro x hx
      rw [heq] at hx
      cases hx
    · rename_i d0 ds heq
      split at h
      · rename_i hall
        have hd0 : d0 = d := by
          injection h with h1
          injection h1
        intro x hx
        rw [heq] at hx
        rcases List.mem_cons.mp hx with rfl | hx2
        · exact hd0
        · have hx3 := List.all_eq_true.mp hall x hx2
          rw [decide_eq_true_eq] at hx3
          omega
      · exact absurd h (by simp)

/-- The timestamps of a series with inferred spacing `d` form the arithmetic
grid starting at its first timestamp. -/
theorem map_fst_eq_gridFrom {s : Series} {d : Int}
    (hf : infer_freq (s.map Prod.fst) = .ok (some d)) :
    s.map Prod.fst = gridFrom (firstTs s) d s.length ∧ 3 ≤ s.length := by
  obtain ⟨hlen, hall⟩ := infer_freq_eq_some hf
  rw [List.length_map] at hlen
  cases hs : s.map Prod.fst with
  | nil =>
    have h0 : s = [] := List.map_eq_nil_iff.mp hs
    rw [h0] at hlen
    simp at hlen
  | cons a rest =>
    have hgrid := diffs_const_eq_gridFrom d rest a (by rw [← hs]; exact hall)
    have hlen2 : rest.length + 1 = s.length := by
      have hc := congrArg List.length hs
      simp at hc
      omega
    have hfirst : firstTs s = a := by unfold firstTs; rw [hs]; rfl
    refine ⟨?_, hlen⟩
    rw [hfirst, ← hlen2]
    exact hgrid

/-! Lookup and forward-fill lemmas over a strictly sorted series. -/

theorem lookupTs_eq_some_mem {s : Series} {t : Int} {v : Rat}
    (h : lookupTs s t = some v) : (t, v) ∈ s := by
  unfold lookupTs at h
  cases hf : s.find? (fun p => decide (p.1 = t)) with
  | none => rw [hf] at h; cases h
  | some p =>
    rw [hf] at h
    have hv : p.2 = v := by injection h
    have hmem := List.mem_of_find?_eq_some hf
    have hpt : p.1 = t := by
      have := List.find?_some hf
      rwa [decide_eq_true_eq] at this
    obtain ⟨p1, p2⟩ := p
    simp only at hv hpt
    rw [← hpt, ← hv]
    exact hmem

theorem lookupTs_eq_none_not_mem {s : Series} {t : Int}
    (h : lookupTs s t = none) : ∀ p ∈ s, p.1 ≠ t := by
  unfold lookupTs at h
  rw [Option.map_eq_none'] at h
  intro p hp hpt
  have hnp := List.find?_eq_none.mp h p hp
  apply hnp
  rw [decide_eq_true_eq]
  exact hpt

theorem ffill_eq_none_of_lt {s : Series} {t : Int}
    (h : ∀ p ∈ s, t < p.1) : ffill s t = none := by
  unfold ffill
  have hnil : s.filter (fun p => decide (p.1 ≤ t)) = [] := by
    rw [List.filter_eq_nil_iff]
    intro p hp
    simp only [decide_eq_true_eq]
    exact not_le.mpr (h p hp)
  rw [hnil]
  rfl

theorem ffill_congr_of_gap {s : Series} {t t' : Int} (hle : t' ≤ t)
    (h : ∀ p ∈ s, p.1 ≤ t → p.1 ≤ t') : ffill s t = ffill s t' := by
  unfold ffill
  have hfeq : s.filter (fun p => decide (p.1 ≤ t)) =
      s.filter (fun p => decide (p.1 ≤ t')) := by
    apply List.filter_congr
    intro p hp
    rw [decide_eq_decide]
    exact ⟨h p hp, fun h2 => le_trans h2 hle⟩
  rw [hfeq]

theorem ffill_self_mem {s : Series} {t : Int} {v : Rat}
    (hs : s.Pairwise (fun p q => p.1 < q.1)) (hm : (t, v) ∈ s) :
    ffill s t = some v := by
  induction s with
  | nil => cases hm
  | cons p rest ih =>
    rw [List.pairwise_cons] at hs
    obtain ⟨hp, hrest⟩ := hs
    rcases List.mem_cons.mp hm with heq | hmem
    · subst heq
      unfold ffill
      rw [List.filter_cons_of_pos (by simp)]
      have hnil : rest.filter (fun q => decide (q.1 ≤ t)) = [] := by
        rw [List.filter_eq_nil_iff]
        intro q hq
        simp only [decide_eq_true_eq]
        exact not_le.mpr (hp q hq)
      rw [hnil]
      rfl
    · have hpt : p.1 < t := hp (t, v) hmem
      have ihv := ih hrest hmem
      unfold ffill at ihv ⊢
      rw [List.filter_cons_of_pos (by simp only [decide_eq_true_eq]; exact le_of_lt hpt)]
      have hne : rest.filter (fun q => decide (q.1 ≤ t)) ≠ [] := by
        intro hnil
        have h2 := List.filter_eq_nil_iff.mp hnil (t, v) hmem
        simp at h2
      cases hl : rest.filter (fun q => decide (q.1 ≤ t)) with
      | nil => exact absurd hl hne
      | cons b l2 =>
        rw [List.getLast?_cons_cons]
        rw [hl] at ihv
        exact ihv

/-- Forward-fill over an aligned grid: when every source timestamp is at least
`t0` and aligned to the step relative to `t0` (so no source point falls
strictly between grid points), the reindex-and-pad walk computes exactly the
most-recent-at-or-before value at every grid point. -/
theorem padAux_eq_ffill_map (s : Series) (t0 step : Int)
    (hstep : 0 < step)
    (hsort : s.Pairwise (fun p q => p.1 < q.1))
    (halign : ∀ p ∈ s, step ∣ (p.1 - t0)) :
    ∀ (n : Nat) (a : Int) (carry : Option Rat),
      step ∣ (a - t0) → carry = ffill s (a - step) →
      padAux s carry (gridFrom a step n) =
        (gridFrom a step n).map fun t => (t, ffill s t) := by
  intro n
  induction n with
  | zero => intro a carry _ _; rfl
  | succ m ih =>
    intro a carry hdvd hcarry
    rw [show gridFrom a step (m + 1) = a :: gridFrom (a + step) step m from rfl]
    have hdvd2 : step ∣ (a + step - t0) := by
      have hadd := dvd_add hdvd (dvd_refl step)
      rwa [show (a - t0) + step = a + step - t0 by ring] at hadd
    cases hl : lookupTs s a with
    | some v =>
      have hmem : (a, v) ∈ s := lookupTs_eq_some_mem hl
      have hfa : ffill s a = some v := ffill_self_mem hsort hmem
      simp only [padAux, hl, List.map_cons, hfa]
      rw [ih (a + step) (some v) hdvd2
        (by rw [show a + step - step = a by ring, hfa])]
    | none =>
      have hnm := lookupTs_eq_none_not_mem hl
      have hgap : ffill s a = ffill s (a - step) := by
        apply ffill_congr_of_gap (by omega)
        intro p hp hpa
        by_contra hgt
        push_neg at hgt
        have hd1 : step ∣ (p.1 - t0) := halign p hp
        have hd2 : step ∣ (a - p.1) := by
          have hsub := dvd_sub hdvd hd1
          rwa [show (a - t0) - (p.1 - t0) = a - p.1 by ring] at hsub
        obtain ⟨c, hc⟩ := hd2
        have hc0 : c = 0 := by
          rcases lt_trichotomy c 0 with hcase | hcase | hcase
          · have h1c : c ≤ -1 := by omega
            have h4 : step * c ≤ step * (-1) :=
              mul_le_mul_of_nonneg_left h1c (le_of_lt hstep)
            linarith
          · exact hcase
          · have h1c : (1 : Int) ≤ c := by omega
            have h4 : step * 1 ≤ step * c :=
              mul_le_mul_of_nonneg_left h1c (le_of_lt hstep)
            linarith
        have hpa2 : p.1 = a := by
          rw [hc0, mul_zero] at hc
          omega
        exact hnm p hp hpa2
      simp only [padAux, hl, List.map_cons, hgap, ← hcarry]
      rw [ih (a + step) carry hdvd2
        (by rw [show a + step - step = a by ring, hgap]; exact hcarry)]

/-- Uniqueness of the floor quotient: an integer lying in the `c`-th half-open
window of width `t` has floor quotient `c`. -/
theorem ediv_eq_of_between {x t c : Int} (ht : 0 < t) (h1 : c * t ≤ x)
    (h2 : x < (c + 1) * t) : x / t = c := by
  have h3 : c ≤ x / t := by
    have h5 := Int.ediv_le_ediv ht h1
    rwa [Int.mul_ediv_cancel c (ne_of_gt ht)] at h5
  have h6 : x + 1 ≤ (c + 1) * t := Int.lt_iff_add_one_le.mp h2
  have hx : x ≤ t - 1 + c * t := by linarith
  have h5 := Int.ediv_le_ediv ht hx
  have hz : (t - 1) / t = 0 := Int.ediv_eq_zero_of_lt (by omega) (by omega)
  rw [Int.add_mul_ediv_right _ _ (ne_of_gt ht), hz] at h5
  exact le_antisymm (by linarith) h3

/-- A 3-point hourly series used as concrete input for the upsampling claim. -/
def sample_hourly : Series := [(0, 1), (60, 2), (120, 3)]

/-- C2 counterexample: upsampling an hourly series to a 25-minute target (the
inferred resolution is coarser than, but not a multiple of, the target) drops
the input points that fall off the new grid.  The output value at timestamp 75
is 1, while the most recent input value at or before 75 is 2, refuting the
claimed forward-fill property; the output length is 8, which is also not the
span 180 divided by the target 25. -/
theorem upsample_ffill_cex :
    resample_if_needed sample_hourly 25 =
      .ok [(0, some 1), (25, some 1), (50, some 1), (75, some 1), (100, some 1),
        (125, some 1), (150, some 1), (175, some 1)] ∧
    ffill sample_hourly 75 = some 2 ∧
    some (1 : Rat) ≠ some (2 : Rat) := by
  refine ⟨rfl, by decide, by decide⟩

/-- C2 (amended): for a series whose inferred resolution is strictly coarser
than the target resolution and an integer multiple of it, adaptation produces
exactly the left-inclusive grid at the target resolution over
`[first, last + inferred)`, every output value is the most recent input value
at or before its timestamp, and the output length times the target resolution
equals that span. -/
theorem upsample_grid_ffill_of_dvd (s : Series) (d target : Int)
    (hf : infer_freq (s.map Prod.fst) = .ok (some d))
    (ht : 0 < target) (hcoarser : target < d) (hdvd : target ∣ d) :
    resample_if_needed s target =
      .ok ((date_range_left (firstTs s) (lastTs s + d) target).map
        fun t => (t, ffill s t)) ∧
    ((date_range_left (firstTs s) (lastTs s + d) target).length : Int) * target =
      lastTs s + d - firstTs s := by
  obtain ⟨hgrid, hlen3⟩ := map_fst_eq_gridFrom hf
  have hd0 : 0 < d := lt_trans ht hcoarser
  have hsort : s.Pairwise (fun p q => p.1 < q.1) := by
    have hp := gridFrom_pairwise hd0 s.length (firstTs s)
    rw [← hgrid] at hp
    exact List.pairwise_map.mp hp
  have hmem : ∀ p ∈ s, ∃ k : Nat, k < s.length ∧ p.1 = firstTs s + k * d := by
    intro p hp
    have hm : p.1 ∈ s.map Prod.fst := List.mem_map_of_mem Prod.fst hp
    rw [hgrid] at hm
    exact mem_gridFrom.mp hm
  have halign : ∀ p ∈ s, target ∣ (p.1 - firstTs s) := by
    intro p hp
    obtain ⟨k, _, hk⟩ := hmem p hp
    rw [hk, show firstTs s + k * d - firstTs s = (k : Int) * d by ring]
    exact Dvd.dvd.mul_left hdvd k
  have hlow : ∀ p ∈ s, firstTs s ≤ p.1 := by
    intro p hp
    obtain ⟨k, _, hk⟩ := hmem p hp
    have hkd : (0 : Int) ≤ k * d := mul_nonneg (Int.natCast_nonneg k) (le_of_lt hd0)
    omega
  obtain ⟨mm, hmm⟩ : ∃ mm : Nat, s.length = mm + 1 := ⟨s.length - 1, by omega⟩
  have hlast : lastTs s = firstTs s + mm * d := by
    unfold lastTs
    rw [hgrid, hmm, gridFrom_getLastD]
  obtain ⟨c, hc⟩ := hdvd
  have hc0 : 0 < c := by nlinarith
  have hspan : lastTs s + d - firstTs s = ((mm + 1 : Nat) : Int) * d := by
    rw [hlast]
    push_cast
    ring
  have hcount : (lastTs s + d - firstTs s + target - 1).fdiv target =
      ((mm + 1 : Nat) : Int) * c := by
    rw [Int.fdiv_eq_ediv _ (le_of_lt ht), hspan, hc]
    rw [show ((mm + 1 : Nat) : Int) * (target * c) + target - 1
        = (target - 1) + (((mm + 1 : Nat) : Int) * c) * target by ring]
    rw [Int.add_mul_ediv_right _ _ (ne_of_gt ht)]
    rw [Int.ediv_eq_zero_of_lt (by omega) (by omega)]
    ring
  constructor
  · have hne : ¬ d = target := by omega
    have hdisp : resample_if_needed s target =
        .ok (reindex_pad s (date_range_left (firstTs s) (lastTs s + d) target)) := by
      simp [resample_if_needed, hf, hne, hcoarser]
    rw [hdisp]
    congr 1
    unfold reindex_pad date_range_left
    apply padAux_eq_ffill_map s (firstTs s) target ht hsort halign
    · simp
    · exact (ffill_eq_none_of_lt fun p hp => by have := hlow p hp; omega).symm
  · have hlen : (date_range_left (firstTs s) (lastTs s + d) target).length
        = (((mm + 1 : Nat) : Int) * c).toNat := by
      unfold date_range_left
      rw [gridFrom_length, hcount]
    rw [hlen]
    have hnn : (0 : Int) ≤ ((mm + 1 : Nat) : Int) * c :=
      mul_nonneg (by positivity) (le_of_lt hc0)
    rw [Int.toNat_of_nonneg hnn, hspan, hc]
    ring

/-- Witness for the amended C2: hourly data upsampled to 15 minutes. -/
theorem upsample_grid_ffill_of_dvd_witness :
    resample_if_needed sample_hourly 15 =
      .ok ((date_range_left (firstTs sample_hourly) (lastTs sample_hourly + 60) 15).map
        fun t => (t, ffill sample_hourly t)) ∧
    ((date_range_left (firstTs sample_hourly) (lastTs sample_hourly + 60) 15).length : Int)
        * 15 = lastTs sample_hourly + 60 - firstTs sample_hourly :=
  upsample_grid_ffill_of_dvd sample_hourly 60 15 rfl (by decide) (by decide) (by decide)

/-- C3: for a series whose inferred resolution is strictly finer than the
target resolution, adaptation downsamples by resample-mean: every output
window start is aligned to the target resolution counted from the midnight
origin of the first day (calendar alignment), every input sample falls into
exactly one output window (the windows are consecutive, non-overlapping and
half-open of width `target`), no window is empty, and each output value is the
arithmetic mean of exactly the input samples falling in its window. -/
theorem downsample_mean_windows (s : Series) (d target : Int)
    (hf : infer_freq (s.map Prod.fst) = .ok (some d))
    (hd : 0 < d) (hfiner : d < target) :
    resample_if_needed s target = .ok (resample_mean s target) ∧
    (∀ q ∈ resample_mean s target,
      target ∣ (q.1 - truncate_to_midnight (firstTs s))) ∧
    (∀ p ∈ s, ∃! b, b ∈ (resample_mean s target).map Prod.fst ∧
      b ≤ p.1 ∧ p.1 < b + target) ∧
    (∀ q ∈ resample_mean s target,
      (s.filter fun p => decide (q.1 ≤ p.1) && decide (p.1 < q.1 + target)) ≠ [] ∧
      q.2 = some (mean_of ((s.filter fun p =>
        decide (q.1 ≤ p.1) && decide (p.1 < q.1 + target)).map Prod.snd))) := by
  have ht : 0 < target := lt_trans hd hfiner
  obtain ⟨hgrid, hlen3⟩ := map_fst_eq_gridFrom hf
  have hmem : ∀ p ∈ s, ∃ k : Nat, k < s.length ∧ p.1 = firstTs s + k * d := by
    intro p hp
    have hm : p.1 ∈ s.map Prod.fst := List.mem_map_of_mem Prod.fst hp
    rw [hgrid] at hm
    exact mem_gridFrom.mp hm
  obtain ⟨mm, hmm⟩ : ∃ mm : Nat, s.length = mm + 1 := ⟨s.length - 1, by omega⟩
  have hlast : lastTs s = firstTs s + mm * d := by
    unfold lastTs
    rw [hgrid, hmm, gridFrom_getLastD]
  set O := truncate_to_midnight (firstTs s) with hO
  set k0 := (firstTs s - O).fdiv target with hk0def
  set kN := (lastTs s - O).fdiv target with hkNdef
  have hk0e : k0 = (firstTs s - O) / target := by
    rw [hk0def]; exact Int.fdiv_eq_ediv _ (le_of_lt ht)
  have hkNe : kN = (lastTs s - O) / target := by
    rw [hkNdef]; exact Int.fdiv_eq_ediv _ (le_of_lt ht)
  obtain ⟨p0, s', hs⟩ : ∃ p0 s', s = p0 :: s' := by
    cases s with
    | nil => simp at hlen3
    | cons a b => exact ⟨a, b, rfl⟩
  have hunf : resample_mean s target =
      (List.range (kN - k0 + 1).toNat).map fun i : Nat =>
        (O + (k0 + (i : Int)) * target,
          if (s.filter fun p => decide (O + (k0 + (i : Int)) * target ≤ p.1) &&
                decide (p.1 < O + (k0 + (i : Int)) * target + target)).length = 0 then none
          else some (mean_of ((s.filter fun p =>
                decide (O + (k0 + (i : Int)) * target ≤ p.1) &&
                decide (p.1 < O + (k0 + (i : Int)) * target + target)).map Prod.snd))) := by
    rw [hk0def, hkNdef, hO, hs]
    rfl
  have hk0low : k0 * target ≤ firstTs s - O := by
    rw [hk0e]; exact Int.ediv_mul_le _ (ne_of_gt ht)
  have hk0high : firstTs s - O < (k0 + 1) * target := by
    rw [hk0e]; exact Int.lt_ediv_add_one_mul_self _ ht
  have hkNlow : kN * target ≤ lastTs s - O := by
    rw [hkNe]; exact Int.ediv_mul_le _ (ne_of_gt ht)
  have hle : firstTs s ≤ lastTs s := by
    have hnn : (0 : Int) ≤ mm * d := mul_nonneg (Int.natCast_nonneg mm) (le_of_lt hd)
    omega
  have hkk : k0 ≤ kN := by
    rw [hk0e, hkNe]; exact Int.ediv_le_ediv ht (by omega)
  have hcnt : ∀ i : Nat, i < (kN - k0 + 1).toNat ↔ (i : Int) ≤ kN - k0 := by
    intro i
    rw [Int.lt_toNat]
    omega
  have hfst : (resample_mean s target).map Prod.fst =
      (List.range (kN - k0 + 1).toNat).map fun i : Nat => O + (k0 + (i : Int)) * target := by
    rw [hunf, List.map_map]
    rfl
  have hwin : ∀ k : Int, k0 ≤ k → k ≤ kN →
      ∃ p, p ∈ s ∧ O + k * target ≤ p.1 ∧ p.1 < O + k * target + target := by
    intro k hkt1 hkt2
    have hleft_le : O + k * target ≤ lastTs s := by
      have hmono : k * target ≤ kN * target :=
        mul_le_mul_of_nonneg_right hkt2 (le_of_lt ht)
      linarith
    rcases le_or_lt (O + k * target) (firstTs s) with hcase | hcase
    · obtain ⟨p, hp, hp1⟩ : ∃ p ∈ s, p.1 = firstTs s := by
        have h1 : firstTs s ∈ s.map Prod.fst := by
          rw [hgrid]
          exact mem_gridFrom.mpr ⟨0, by omega, by ring⟩
        obtain ⟨p, hp, hpe⟩ := List.mem_map.mp h1
        exact ⟨p, hp, hpe⟩
      refine ⟨p, hp, by omega, ?_⟩
      have h2 : (k0 + 1) * target ≤ (k + 1) * target :=
        mul_le_mul_of_nonneg_right (by omega) (le_of_lt ht)
      rw [hp1]
      linarith
    · set x := O + k * target - firstTs s with hx
      have hx0 : 0 < x := by omega
      set cj := (x + d - 1) / d with hcj
      have hcj1 : 1 ≤ cj := by
        have h7 : d ≤ x + d - 1 := by omega
        have h8 := Int.ediv_le_ediv hd h7
        rw [Int.ediv_self (ne_of_gt hd)] at h8
        rw [hcj]
        exact h8
      have hcjd_ge : x ≤ cj * d := by
        have h9 := Int.ediv_add_emod (x + d - 1) d
        have h10 := Int.emod_lt_of_pos (x + d - 1) hd
        rw [← hcj] at h9
        linarith
      have hcjd_le : cj * d ≤ x + d - 1 := by
        have h14 := Int.ediv_mul_le (x + d - 1) (ne_of_gt hd)
        rw [← hcj] at h14
        exact h14
      have hxmm : x ≤ (mm : Int) * d := by linarith
      have hcjmm : cj ≤ mm := by
        have h13 : cj * d < ((mm : Int) + 1) * d := by linarith
        have h15 := lt_of_mul_lt_mul_right h13 (le_of_lt hd)
        omega
      obtain ⟨p, hp, hp1⟩ : ∃ p ∈ s, p.1 = firstTs s + cj * d := by
        have h1 : firstTs s + cj * d ∈ s.map Prod.fst := by
          rw [hgrid]
          refine mem_gridFrom.mpr ⟨cj.toNat, by omega, ?_⟩
          rw [Int.toNat_of_nonneg (by omega : (0 : Int) ≤ cj)]
        obtain ⟨p, hp, hpe⟩ := List.mem_map.mp h1
        exact ⟨p, hp, hpe⟩
      refine ⟨p, hp, ?_, ?_⟩
      · rw [hp1]; linarith
      · rw [hp1]; linarith
  refine ⟨?_, ?_, ?_, ?_⟩
  · have hne : ¬ d = target := by omega
    have hnl : ¬ target < d := by omega
    simp [resample_if_needed, hf, hne, hnl]
  · intro q hq
    rw [hunf] at hq
    obtain ⟨i, _, hqe⟩ := List.mem_map.mp hq
    rw [← hqe]
    show target ∣ (O + (k0 + i) * target - O)
    rw [show O + (k0 + (i : Int)) * target - O = (k0 + i) * target by ring]
    exact dvd_mul_left target (k0 + i)
  · intro p hp
    obtain ⟨kk, hkklt, hkke⟩ := hmem p hp
    have hplow : firstTs s ≤ p.1 := by
      have hnn : (0 : Int) ≤ kk * d := mul_nonneg (Int.natCast_nonneg kk) (le_of_lt hd)
      omega
    have hphigh : p.1 ≤ lastTs s := by
      have hkkmm : (kk : Int) ≤ mm := by
        have := hkklt
        rw [hmm] at this
        exact_mod_cast Nat.lt_succ_iff.mp this
      have hmono : (kk : Int) * d ≤ (mm : Int) * d :=
        mul_le_mul_of_nonneg_right hkkmm (le_of_lt hd)
      omega
    set kp := (p.1 - O) / target with hkp
    have hkp1 : k0 ≤ kp := by
      rw [hk0e, hkp]; exact Int.ediv_le_ediv ht (by omega)
    have hkp2 : kp ≤ kN := by
      rw [hkNe, hkp]; exact Int.ediv_le_ediv ht (by omega)
    have hb1 : kp * target ≤ p.1 - O := by
      rw [hkp]; exact Int.ediv_mul_le _ (ne_of_gt ht)
    have hb2 : p.1 - O < (kp + 1) * target := by
      rw [hkp]; exact Int.lt_ediv_add_one_mul_self _ ht
    refine ⟨O + kp * target, ⟨?_, by linarith, by linarith⟩, ?_⟩
    · rw [hfst]
      have hin : (kp - k0).toNat ∈ List.range (kN - k0 + 1).toNat := by
        rw [List.mem_range, Int.lt_toNat, Int.toNat_of_nonneg (by omega : (0 : Int) ≤ kp - k0)]
        omega
      refine List.mem_map.mpr ⟨(kp - k0).toNat, hin, ?_⟩
      rw [Int.toNat_of_nonneg (by omega : (0 : Int) ≤ kp - k0)]
      ring
    · rintro b' ⟨hb'mem, hb'1, hb'2⟩
      rw [hfst] at hb'mem
      obtain ⟨i, _, hie⟩ := List.mem_map.mp hb'mem
      rw [← hie] at hb'1 hb'2 ⊢
      have h21 : (p.1 - O) / target = k0 + i :=
        ediv_eq_of_between ht (by linarith) (by linarith)
      have h20 : kp = k0 + i := by rw [hkp]; exact h21
      rw [h20]
  · intro q hq
    rw [hunf] at hq
    obtain ⟨i, hir, hqe⟩ := List.mem_map.mp hq
    have hik : k0 + (i : Int) ≤ kN := by
      have := (hcnt i).mp (List.mem_range.mp hir)
      omega
    obtain ⟨p, hp, hw1, hw2⟩ := hwin (k0 + i) (by omega) hik
    subst hqe
    have hmem_p : p ∈ s.filter (fun r => decide (O + (k0 + (i : Int)) * target ≤ r.1) &&
        decide (r.1 < O + (k0 + (i : Int)) * target + target)) := by
      rw [List.mem_filter]
      refine ⟨hp, ?_⟩
      rw [Bool.and_eq_true, decide_eq_true_eq, decide_eq_true_eq]
      exact ⟨hw1, hw2⟩
    have hne2 : s.filter (fun r => decide (O + (k0 + (i : Int)) * target ≤ r.1) &&
        decide (r.1 < O + (k0 + (i : Int)) * target + target)) ≠ [] :=
      List.ne_nil_of_mem hmem_p
    have hlen0 : (s.filter (fun r => decide (O + (k0 + (i : Int)) * target ≤ r.1) &&
        decide (r.1 < O + (k0 + (i : Int)) * target + target))).length ≠ 0 := by
      intro h0
      exact hne2 (List.length_eq_zero.mp h0)
    refine ⟨hne2, ?_⟩
    show (if (s.filter fun r => decide (O + (k0 + (i : Int)) * target ≤ r.1) &&
          decide (r.1 < O + (k0 + (i : Int)) * target + target)).length = 0 then none
        else some (mean_of ((s.filter fun r =>
          decide (O + (k0 + (i : Int)) * target ≤ r.1) &&
          decide (r.1 < O + (k0 + (i : Int)) * target + target)).map Prod.snd))) =
      some (mean_of ((s.filter fun r =>
        decide (O + (k0 + (i : Int)) * target ≤ r.1) &&
        decide (r.1 < O + (k0 + (i : Int)) * target + target)).map Prod.snd))
    rw [if_neg hlen0]

/-- Witness for C3: 15-minute data downsampled to a 60-minute target. -/
theorem downsample_mean_windows_witness :
    resample_if_needed [((0 : Int), (1 : Rat)), (15, 2), (30, 3), (45, 4), (60, 5)] 60 =
      .ok (resample_mean [((0 : Int), (1 : Rat)), (15, 2), (30, 3), (45, 4), (60, 5)] 60) ∧
    (∀ q ∈ resample_mean [((0 : Int), (1 : Rat)), (15, 2), (30, 3), (45, 4), (60, 5)] 60,
      (60 : Int) ∣ (q.1 - truncate_to_midnight
        (firstTs [((0 : Int), (1 : Rat)), (15, 2), (30, 3), (45, 4), (60, 5)]))) ∧
    (∀ p ∈ [((0 : Int), (1 : Rat)), (15, 2), (30, 3), (45, 4), (60, 5)],
      ∃! b, b ∈ (resample_mean [((0 : Int), (1 : Rat)), (15, 2), (30, 3), (45, 4),
        (60, 5)] 60).map Prod.fst ∧ b ≤ p.1 ∧ p.1 < b + 60) ∧
    (∀ q ∈ resample_mean [((0 : Int), (1 : Rat)), (15, 2), (30, 3), (45, 4), (60, 5)] 60,
      ([((0 : Int), (1 : Rat)), (15, 2), (30, 3), (45, 4), (60, 5)].filter fun p =>
        decide (q.1 ≤ p.1) && decide (p.1 < q.1 + 60)) ≠ [] ∧
      q.2 = some (mean_of (([((0 : Int), (1 : Rat)), (15, 2), (30, 3), (45, 4),
        (60, 5)].filter fun p =>
          decide (q.1 ≤ p.1) && decide (p.1 < q.1 + 60)).map Prod.snd))) :=
  downsample_mean_windows [((0 : Int), (1 : Rat)), (15, 2), (30, 3), (45, 4), (60, 5)]
    15 60 rfl (by decide) (by decide)

/-- Whether frequency inference yields no usable resolution (it either raises,
on fewer than 3 timestamps, or returns `None`, on an irregular index). -/
def no_inferable_freq (ts : List Int) : Bool :=
  match infer_freq ts with
  | .ok (some _) => false
  | _ => true

/-- C6: whenever no consistent sampling frequency can be inferred from the
series (irregular spacing, or too few points as in a single-point series),
adaptation fails with a `ValueError`; in the irregular case it is exactly the
error saying no event resolution can be derived. -/
theorem resample_fails_without_freq (s : Series) (target : Int)
    (h : no_inferable_freq (s.map Prod.fst) = true) :
    (infer_freq (s.map Prod.fst) = .ok none →
      resample_if_needed s target =
        .error
          "Data has no discernible frequency from which to derive an event resolution.") ∧
    ∃ msg, resample_if_needed s target = .error msg := by
  unfold no_inferable_freq at h
  cases hf : infer_freq (s.map Prod.fst) with
  | error e =>
    refine ⟨fun hc => Except.noConfusion hc, ⟨e, ?_⟩⟩
    simp [resample_if_needed, hf]
  | ok o =>
    cases o with
    | none =>
      have hr : resample_if_needed s target =
          .error
            "Data has no discernible frequency from which to derive an event resolution." := by
        simp [resample_if_needed, hf]
      exact ⟨fun _ => hr, ⟨_, hr⟩⟩
    | some d => rw [hf] at h; simp at h

/-- Witness for C6: a single-point series has no inferable frequency. -/
theorem resample_fails_without_freq_witness :
    (infer_freq ([((0 : Int), (1 : Rat))].map Prod.fst) = .ok none →
      resample_if_needed [((0 : Int), (1 : Rat))] 15 =
        .error
          "Data has no discernible frequency from which to derive an event resolution.") ∧
    ∃ msg, resample_if_needed [((0 : Int), (1 : Rat))] 15 = .error msg :=
  resample_fails_without_freq [((0 : Int), (1 : Rat))] 15 (by decide)

/-- C7: when the inferred sampling frequency equals the target resolution,
adaptation returns the series unchanged. -/
theorem resample_id_of_eq_resolution (s : Series) (target : Int)
    (h : infer_freq (s.map Prod.fst) = .ok (some target)) :
    resample_if_needed s target = .ok (with_some s) := by
  simp [resample_if_needed, h]

/-- Witness for C7: a 15-minute series with a 15-minute target. -/
theorem resample_id_of_eq_resolution_witness :
    resample_if_needed [((0 : Int), (1 : Rat)), (15, 2), (30, 3)] 15 =
      .ok (with_some [((0 : Int), (1 : Rat)), (15, 2), (30, 3)]) :=
  resample_id_of_eq_resolution [((0 : Int), (1 : Rat)), (15, 2), (30, 3)] 15 rfl


